import Mathlib

/-
Verification development for the syen air-written digit recognition
pipeline (src/infer.py, src/train_svm_digits.py).

Modelling conventions:
  * A pandas row is a `Rec` with the nine fields produced by `parse_row`.
  * A pandas DataFrame is a `Frame`: its rows plus a flag recording whether
    the `t_ms` column is present (training CSVs may lack it; the stream
    path always has it).
  * Python floats are modelled as exact rationals.  The only operation
    that leaves the rationals is `sqrt` (used by `np.std`, `np.sqrt` and
    `np.linalg.norm`); it is passed in as an explicit parameter
    `sq : Rat → Rat` standing for floating-point square root, about which
    theorems assume only the facts they need (nonnegativity on
    nonnegative inputs, exactness on perfect squares — both true of IEEE
    sqrt on exactly-representable values).
  * `df["t_ms"].is_monotonic_increasing` in pandas is the NON-strict
    adjacent comparison, modelled as the Boolean check `monoNondec`.
-/

namespace Syen

/-- Sample Record: the nine fields built by `parse_row`
(`t_ms,ax,ay,az,gx,gy,gz,state,label`). -/
structure Rec where
  t_ms : Int
  ax : Rat
  ay : Rat
  az : Rat
  gx : Rat
  gy : Rat
  gz : Rat
  state : Int
  label : String
deriving DecidableEq

/-- A DataFrame: ordered rows plus presence of the `t_ms` column. -/
structure Frame where
  hasT : Bool
  rows : List Rec
deriving DecidableEq

/-- Embedding of `np.mean` (mean of a list; the empty case divides by zero, which the
source never reaches on the paths verified here). -/
def npMean (x : List Rat) : Rat := x.sum / (x.length : Rat)

/-- The square of `np.std` (population variance, ddof=0):
mean of squared deviations from the mean. -/
def npVar (x : List Rat) : Rat := npMean (x.map (fun t => (t - npMean x) ^ 2))

/-- Embedding of `np.max` on a nonempty list (0 for the empty list, unreached). -/
def listMax : List Rat → Rat
  | [] => 0
  | a :: l => l.foldl max a

/-- Embedding of `np.min` on a nonempty list (0 for the empty list, unreached). -/
def listMin : List Rat → Rat
  | [] => 0
  | a :: l => l.foldl min a

/-- Embedding of `np.median`: middle element of the sorted list, or the average of the
two middle elements for even length. -/
def npMedian (x : List Rat) : Rat :=
  let s := x.insertionSort (· ≤ ·)
  let n := x.length
  if n % 2 = 1 then s.getD (n / 2) 0
  else (s.getD (n / 2 - 1) 0 + s.getD (n / 2) 0) / 2

/-- pandas `Series.is_monotonic_increasing`: every adjacent pair is
non-strictly increasing. -/
def monoNondec : List Int → Bool
  | a :: b :: rest => decide (a ≤ b) && monoNondec (b :: rest)
  | _ => true

/-- The strict reading of "strictly increasing" used by the claims. -/
def monoStrictInc : List Int → Bool
  | a :: b :: rest => decide (a < b) && monoStrictInc (b :: rest)
  | _ => true

/-- Embedding of `l.iloc[k:-k]` for `2*k < l.length`: drop `k` records from each end. -/
def dropEnds (k : Nat) (l : List Rec) : List Rec :=
  (l.drop k).take (l.length - 2 * k)

/-- Embedding of `keep_writing_segment` (identical in src/infer.py lines 88–100 and
src/train_svm_digits.py lines 35–52, up to the extra check of the training copy that the
`state` column exists, which always holds in this model):
keep only rows with `state == 1`; reject segments shorter than 8 rows
(returning `pd.DataFrame()`, an empty frame without columns); if `t_ms`
is present and monotonic (pandas non-strict `is_monotonic_increasing`),
keep rows with `t_ms` in `[t0+200, t1-200]`, falling back to dropping two
rows from each end when the result has fewer than 8 but more than 4 rows;
otherwise drop `max(2, len//20)` rows from each end when more than `2*k`
rows remain. -/
def keep_writing_segment (f : Frame) : Frame :=
  let rows := f.rows.filter (fun r => decide (r.state = 1))
  if rows.length < 8 then ⟨false, []⟩
  else if f.hasT && monoNondec (rows.map (·.t_ms)) then
    let t0 : Int := (rows.map (·.t_ms)).headD 0
    let t1 : Int := (rows.map (·.t_ms)).getLastD 0
    let g := rows.filter (fun r => decide (t0 + 200 ≤ r.t_ms) && decide (r.t_ms ≤ t1 - 200))
    if g.length < 8 then (if 4 < g.length then ⟨f.hasT, dropEnds 2 g⟩ else ⟨f.hasT, g⟩)
    else ⟨f.hasT, g⟩
  else
    let k := max 2 (rows.length / 20)
    if 2 * k < rows.length then ⟨f.hasT, dropEnds k rows⟩ else ⟨f.hasT, rows⟩

/-- Zero-crossing count `np.sum((x[:-1]*x[1:]) < 0)`: adjacent pairs with
strictly negative product. -/
def countZC : List Rat → Nat
  | a :: b :: rest => (if a * b < 0 then 1 else 0) + countZC (b :: rest)
  | _ => 0

/-- The inference-time peak counter (src/infer.py lines 126–129), applied
to the absolute signal: interior samples strictly above the threshold and
at least as large as both three-sample neighbours,
`np.sum((t[1:-1]>thr) & (t[1:-1]>=t[:-2]) & (t[1:-1]>=t[2:]))`. -/
def countLocalPeaks (thr : Rat) : List Rat → Nat
  | p :: c :: n2 :: rest =>
      (if thr < c ∧ p ≤ c ∧ n2 ≤ c then 1 else 0) + countLocalPeaks thr (c :: n2 :: rest)
  | _ => 0

/-- Core loop of the scipy function `_local_maxima_1d`, restated structurally.
`last` is the previous sample; `cand = some c` means the walk is inside a
plateau of value `c` that strictly rose from its left neighbour (so `c`
becomes a peak exactly when the plateau ends with a strict drop before
the end of the signal).  Emits the height of each flat-or-sharp local
maximum once, in order. -/
def peaksGo (last : Rat) (cand : Option Rat) : List Rat → List Rat
  | [] => []
  | y :: rest =>
      match cand with
      | some c =>
          if y = c then peaksGo y (some c) rest
          else if y < c then c :: peaksGo y none rest
          else peaksGo y (some y) rest
      | none => if last < y then peaksGo y (some y) rest else peaksGo y none rest

/-- Heights of the local maxima found by scipy `find_peaks` before any
property filtering (peaks only at interior indices; a flat peak counts
once). -/
def scipyPeakHeights : List Rat → List Rat
  | [] => []
  | p :: rest => peaksGo p none rest

/-- The training-time peak count (src/train_svm_digits.py line 65):
`peaks, _ = find_peaks(np.abs(x), height=np.std(x)*1.0); len(peaks)` —
local maxima of the absolute signal whose height is at least the
standard deviation. -/
def trainPeakCount (sq : Rat → Rat) (x : List Rat) : Nat :=
  ((scipyPeakHeights (x.map (fun t => |t|))).filter
    (fun h => decide (sq (npVar x) * 1 ≤ h))).length

/-- The inference-time peak count (src/infer.py lines 126–129):
`thr = np.std(x)*1.0` and the hand-rolled three-sample test on
`np.abs(x)`. -/
def inferPeakCount (sq : Rat → Rat) (x : List Rat) : Nat :=
  countLocalPeaks (sq (npVar x) * 1) (x.map (fun t => |t|))

namespace Train

/-- Embedding of `feat_channel` of src/train_svm_digits.py (lines 54–66): per-channel
statistics `[mean, std, rms, range, mad, energy, zero-cross, peak-count]`,
with `[0]*8` for an empty channel.  `sq` is floating-point square root
(used by `np.std` and `np.sqrt`). -/
def feat_channel (sq : Rat → Rat) (x : List Rat) : List Rat :=
  if x = [] then [0, 0, 0, 0, 0, 0, 0, 0]
  else
    let mean := npMean x
    let std := sq (npVar x)
    let rms := sq (npMean (x.map (fun t => t * t)))
    let rng := listMax x - listMin x
    let mad := npMedian (x.map (fun t => |t - npMedian x|))
    let eng := (x.map (fun t => t * t)).sum
    let zc : Nat := countZC x
    let peaks : Nat := trainPeakCount sq x
    [mean, std, rms, rng, mad, eng, (zc : Rat), (peaks : Rat)]

end Train

namespace Infer

/-- Embedding of `feat_channel` of src/infer.py (lines 116–130): identical to the
training version except for the peak count, which uses the cheap
scipy-free approximation. -/
def feat_channel (sq : Rat → Rat) (x : List Rat) : List Rat :=
  if x = [] then [0, 0, 0, 0, 0, 0, 0, 0]
  else
    let mean := npMean x
    let std := sq (npVar x)
    let rms := sq (npMean (x.map (fun t => t * t)))
    let rng := listMax x - listMin x
    let mad := npMedian (x.map (fun t => |t - npMedian x|))
    let eng := (x.map (fun t => t * t)).sum
    let zc : Nat := countZC x
    let peaks : Nat := inferPeakCount sq x
    [mean, std, rms, rng, mad, eng, (zc : Rat), (peaks : Rat)]

end Infer

/-- The six channel projections, in the fixed `CHANNELS` order
`["ax","ay","az","gx","gy","gz"]`. -/
def chanFuns : List (Rec → Rat) := [(·.ax), (·.ay), (·.az), (·.gx), (·.gy), (·.gz)]

/-- One raw channel column of a frame. -/
def chan (f : Frame) (g : Rec → Rat) : List Rat := f.rows.map g

/-- Per-channel normalization divisor `sd = X.std(axis=0) + 1e-6`. -/
def sdEps (sq : Rat → Rat) (x : List Rat) : Rat := sq (npVar x) + 1 / 1000000

/-- Per-trial z-score of one channel: `(x - mu) / sd`. -/
def zscore (sq : Rat → Rat) (x : List Rat) : List Rat :=
  x.map (fun t => (t - npMean x) / sdEps sq x)

/-- Duration in seconds `(t_ms[-1] - t_ms[0]) / 1000` when the `t_ms`
column is present and monotonic, else 0. -/
def durS (f : Frame) : Rat :=
  if f.hasT && monoNondec (f.rows.map (·.t_ms)) then
    (((f.rows.map (·.t_ms)).getLastD 0 - (f.rows.map (·.t_ms)).headD 0 : Int) : Rat) / 1000
  else 0

/-- Per-row Euclidean norm of the three normalized accel channels, summed:
`np.sum(np.linalg.norm(Xn[:, :3], axis=1))`. -/
def accelPath (sq : Rat → Rat) (f : Frame) : Rat :=
  (f.rows.map (fun r =>
    sq (((r.ax - npMean (chan f (·.ax))) / sdEps sq (chan f (·.ax))) ^ 2 +
        ((r.ay - npMean (chan f (·.ay))) / sdEps sq (chan f (·.ay))) ^ 2 +
        ((r.az - npMean (chan f (·.az))) / sdEps sq (chan f (·.az))) ^ 2))).sum

/-- Per-row Euclidean norm of the three normalized gyro channels, summed:
`np.sum(np.linalg.norm(Xn[:, 3:], axis=1))`. -/
def gyroPath (sq : Rat → Rat) (f : Frame) : Rat :=
  (f.rows.map (fun r =>
    sq (((r.gx - npMean (chan f (·.gx))) / sdEps sq (chan f (·.gx))) ^ 2 +
        ((r.gy - npMean (chan f (·.gy))) / sdEps sq (chan f (·.gy))) ^ 2 +
        ((r.gz - npMean (chan f (·.gz))) / sdEps sq (chan f (·.gz))) ^ 2))).sum

/-- Embedding of `yaw_int = np.sum(np.abs(gz))` over the normalized yaw channel. -/
def yawInt (sq : Rat → Rat) (f : Frame) : Rat :=
  ((zscore sq (chan f (·.gz))).map (fun t => |t|)).sum

/-- Shared body of the two `trial_features` copies: the six per-channel
8-stat blocks on the z-scored channels, in `CHANNELS` order, followed by
`[dur_s, a_path, g_path, yaw_int]`. -/
def trialCore (fc : List Rat → List Rat) (sq : Rat → Rat) (f : Frame) : List Rat :=
  (chanFuns.map (fun g => fc (zscore sq (chan f g)))).flatten ++
    [durS f, accelPath sq f, gyroPath sq f, yawInt sq f]

namespace Train

/-- Embedding of `trial_features` of src/train_svm_digits.py (lines 68–90). -/
def trial_features (sq : Rat → Rat) (f : Frame) : List Rat :=
  Syen.trialCore (Train.feat_channel sq) sq f

end Train

namespace Infer

/-- Embedding of `trial_features` of src/infer.py (lines 102–136). -/
def trial_features (sq : Rat → Rat) (f : Frame) : List Rat :=
  Syen.trialCore (Infer.feat_channel sq) sq f

end Infer

/-! Segment Stream Controller: the record-processing loop of `main`
(src/infer.py lines 158–181), with the serial transport and the
prediction call abstracted away.  The loop state is the buffer and the
`in_write` flag; each record produces the (possibly empty) list of
segments emitted at that step. -/

/-- Mutable state of the streaming loop: `buf, in_write = [], False`. -/
structure SState where
  buf : List Rec
  in_write : Bool
deriving DecidableEq

/-- Initial controller state. -/
def initS : SState := ⟨[], false⟩

/-- One iteration of the `while True` body for one parsed record:
on `state == 1` start or extend the buffer; otherwise, if `in_write`,
clear the flag and emit the buffered segment (the prediction attempt),
else do nothing. -/
def step (s : SState) (r : Rec) : SState × List (List Rec) :=
  if r.state = 1 then
    if s.in_write then (⟨s.buf ++ [r], true⟩, [])
    else (⟨[r], true⟩, [])
  else
    if s.in_write then (⟨s.buf, false⟩, [s.buf])
    else (s, [])

/-- Run the loop over a finite prefix of the record stream, collecting
all emitted segments in order. -/
def runStream (s : SState) : List Rec → SState × List (List Rec)
  | [] => (s, [])
  | r :: rs =>
      let p := step s r
      let q := runStream p.1 rs
      (q.1, p.2 ++ q.2)

/-- Specification-side description of the emitted segments (from the
words of the claim): the maximal runs of `state == 1` records, each emitted
exactly once, at the first following record whose state is not 1; a run
still open at the end of the stream is not emitted.  `cur` is the run
accumulated so far. -/
def completedRuns (cur : List Rec) : List Rec → List (List Rec)
  | [] => []
  | r :: rs =>
      if r.state = 1 then completedRuns (cur ++ [r]) rs
      else if cur = [] then completedRuns [] rs
      else cur :: completedRuns [] rs

/-! `parse_row` (src/infer.py lines 138–150). -/

/-- Python `str.strip()`: remove leading and trailing whitespace
(a line is modelled as its decoded character list). -/
def stripWs (l : List Char) : List Char :=
  ((l.dropWhile Char.isWhitespace).reverse.dropWhile Char.isWhitespace).reverse

/-- Python `str.split(",")` for a one-character separator: split at every
occurrence, keeping empty fields (`"".split(",") == [""]`). -/
def splitFields (sep : Char) : List Char → List (List Char)
  | [] => [[]]
  | c :: rest =>
      if c = sep then [] :: splitFields sep rest
      else
        match splitFields sep rest with
        | f :: fs => (c :: f) :: fs
        | [] => [[c]]

/-- Field-level body of `parse_row`: require exactly 9 fields; `t_ms` and
`state` parse as ints, the six channels as floats (one failure inside the
`try` makes the whole record `None`); the label field is kept verbatim. -/
def parseFields (pint : List Char → Option Int) (pfloat : List Char → Option Rat) :
    List (List Char) → Option Rec
  | [s0, s1, s2, s3, s4, s5, s6, s7, s8] =>
      match pint s0, pfloat s1, pfloat s2, pfloat s3,
            pfloat s4, pfloat s5, pfloat s6, pint s7 with
      | some t, some a1, some a2, some a3, some g1, some g2, some g3, some st =>
          some ⟨t, a1, a2, a3, g1, g2, g3, st, s8.asString⟩
      | _, _, _, _, _, _, _, _ => none
  | _ => none

/-- The whole of `parse_row`: `line.strip().split(",")`, then the field
checks.  The Python `int`/`float` literal grammars are abstracted as the
parameters `pint` and `pfloat` (the claim is independent of them). -/
def parse_row (pint : List Char → Option Int) (pfloat : List Char → Option Rat)
    (line : List Char) : Option Rec :=
  parseFields pint pfloat (splitFields ',' (stripWs line))

/-! Corpus loading (src/train_svm_digits.py lines 30–33 and 92–105).
The filesystem scan `sorted(data_dir.glob("digit_*.csv"))` and
`pd.read_csv` are the I/O boundary: they are modelled by the input list
of `CsvFile`s, where `content = none` stands for a `read_csv` exception
(silently skipped by the source). -/

/-- A scanned corpus file: its name and its parsed contents, if
`pd.read_csv` succeeded. -/
structure CsvFile where
  name : String
  content : Option Frame

/-- Does `digit_([0-9])_` match at the head of this character list?
Returns the captured digit. -/
def digitPatHere : List Char → Option Nat
  | 'd' :: 'i' :: 'g' :: 'i' :: 't' :: '_' :: c :: '_' :: _ =>
      if c.isDigit then some (c.toNat - '0'.toNat) else none
  | _ => none

/-- Embedding of `re.search` for `digit_([0-9])_`: leftmost match wins. -/
def searchDigitPat : List Char → Option Nat
  | [] => none
  | c :: rest =>
      match digitPatHere (c :: rest) with
      | some d => some d
      | none => searchDigitPat rest

/-- Embedding of `label_from_name` (src/train_svm_digits.py lines 30–33), with the
`ValueError` modelled as `none`: `int(m.group(1))` of the first
`digit_([0-9])_` match in the file name. -/
def label_from_name (name : String) : Option Int :=
  (searchDigitPat name.toList).map Int.ofNat

/-- One loaded sample: feature vector, label, file name. -/
structure Sample where
  feats : List Rat
  lab : Int
  file : String

/-- Worker for `load_dataset`: iterate over the scanned files in order,
skipping unreadable files and files whose trimmed segment is empty;
raise (abort the whole load) on the first usable file whose label cannot
be parsed; raise at the end if no sample was collected. -/
def loadDatasetGo (sq : Rat → Rat) (acc : List Sample) :
    List CsvFile → Except String (List Sample)
  | [] =>
      if acc.isEmpty then .error "No usable samples found. Check folder/CSVs."
      else .ok acc
  | fp :: rest =>
      match fp.content with
      | none => loadDatasetGo sq acc rest
      | some df =>
          let dfw := keep_writing_segment df
          if dfw.rows.isEmpty then loadDatasetGo sq acc rest
          else
            match label_from_name fp.name with
            | none => .error ("Cannot parse label from filename: " ++ fp.name)
            | some l =>
                loadDatasetGo sq (acc ++ [⟨Train.trial_features sq dfw, l, fp.name⟩]) rest

/-- Embedding of `load_dataset` (src/train_svm_digits.py lines 92–105) over the list
of scanned files. -/
def load_dataset (sq : Rat → Rat) (files : List CsvFile) : Except String (List Sample) :=
  loadDatasetGo sq [] files

/-! Specification-side definitions, written from the words of the spec
and of the claims (not from the source), for comparison against
`keep_writing_segment`. -/

/-- Modelled from claim C3 as stated: if timestamps are present and
STRICTLY increasing, keep records with `t_ms` in `[t0+200, t1-200]`,
falling back to dropping 2 records per end when fewer than 8 but more
than 4 remain; otherwise drop `k = max(2, len/20)` records from each end
iff `len > 2*k`. -/
def trimClaimedStrict (f : Frame) : List Rec :=
  if f.hasT && monoStrictInc (f.rows.map (·.t_ms)) then
    let t0 : Int := (f.rows.map (·.t_ms)).headD 0
    let t1 : Int := (f.rows.map (·.t_ms)).getLastD 0
    let g := f.rows.filter (fun r => decide (t0 + 200 ≤ r.t_ms) && decide (r.t_ms ≤ t1 - 200))
    if g.length < 8 then (if 4 < g.length then dropEnds 2 g else g) else g
  else
    let k := max 2 (f.rows.length / 20)
    if 2 * k < f.rows.length then dropEnds k f.rows else f.rows

/-- The amended claim C3: identical to `trimClaimedStrict` except that
the timestamp condition is the non-strict one the code actually tests
(pandas `is_monotonic_increasing`, i.e. non-decreasing). -/
def trimSpecMono (f : Frame) : List Rec :=
  if f.hasT && monoNondec (f.rows.map (·.t_ms)) then
    let t0 : Int := (f.rows.map (·.t_ms)).headD 0
    let t1 : Int := (f.rows.map (·.t_ms)).getLastD 0
    let g := f.rows.filter (fun r => decide (t0 + 200 ≤ r.t_ms) && decide (r.t_ms ≤ t1 - 200))
    if g.length < 8 then (if 4 < g.length then dropEnds 2 g else g) else g
  else
    let k := max 2 (f.rows.length / 20)
    if 2 * k < f.rows.length then dropEnds k f.rows else f.rows

/-! Concrete inputs used by counterexamples and witnesses. -/

/-- A record with the given timestamp and state and all-zero channels. -/
def mkRec (t : Int) (st : Int) : Rec := ⟨t, 0, 0, 0, 0, 0, 0, st, ""⟩

/-- Eight `state == 1` records whose timestamps rise 0..6 and then fall
back to 5 (so `t_ms` is not monotonic). -/
def cexC1 : Frame :=
  ⟨true, [mkRec 0 1, mkRec 1 1, mkRec 2 1, mkRec 3 1,
          mkRec 4 1, mkRec 5 1, mkRec 6 1, mkRec 5 1]⟩

/-- Eight `state == 1` records all carrying timestamp 0 (non-decreasing
but not strictly increasing). -/
def cexC3 : Frame :=
  ⟨true, [mkRec 0 1, mkRec 0 1, mkRec 0 1, mkRec 0 1,
          mkRec 0 1, mkRec 0 1, mkRec 0 1, mkRec 0 1]⟩

/-- A single-record frame. -/
def wRow1 : Frame := ⟨true, [mkRec 0 1]⟩

/-- Twelve `state == 1` records with timestamps 0,100,...,1100: the 200 ms
trim keeps the eight records with `t_ms` in [200, 900]. -/
def wSeg12 : Frame :=
  ⟨true, [mkRec 0 1, mkRec 100 1, mkRec 200 1, mkRec 300 1,
          mkRec 400 1, mkRec 500 1, mkRec 600 1, mkRec 700 1,
          mkRec 800 1, mkRec 900 1, mkRec 1000 1, mkRec 1100 1]⟩

/-- A concrete integer parser used only to instantiate witnesses. -/
def pintDemo (s : List Char) : Option Int :=
  if s = ['1'] then some 1 else if s = ['7'] then some 7 else none

/-- A concrete float parser used only to instantiate witnesses. -/
def pfloatDemo (s : List Char) : Option Rat :=
  if s = ['2'] then some 2 else none

/-! Theorems. -/

/-- Claim C1, refuted at a concrete input: on eight `state == 1` records
with non-monotonic timestamps, `keep_writing_segment` returns a
non-empty cleaned segment of only 4 records, so the result is neither
empty nor at least 8 records long. -/
theorem c1_counterexample :
    (keep_writing_segment cexC1).rows ≠ [] ∧
      (keep_writing_segment cexC1).rows.length < 8 := by
  decide

/-- Claim C1 as amended: the half of the claim the code satisfies — any
input with fewer than 8 records yields the empty result (the minimum
non-empty output length is not 8, as the counterexample shows). -/
theorem c1_short_input_empty (f : Frame) (h : f.rows.length < 8) :
    (keep_writing_segment f).rows = [] := by
  have hle := List.length_filter_le (fun r => decide (r.state = 1)) f.rows
  simp only [keep_writing_segment]
  rw [if_pos (by omega)]

/-- Witness for `c1_short_input_empty` at a one-record frame. -/
theorem c1_short_input_empty_witness : (keep_writing_segment wRow1).rows = [] :=
  c1_short_input_empty wRow1 (by decide)

/-- Claim C3, refuted at a concrete input: eight records whose timestamps
are all equal are "not strictly increasing", so the claim prescribes the
count-based trim (dropping 2 from each end, keeping 4 records); the code
instead takes the time branch (pandas monotonicity is non-strict) and
returns the empty segment. -/
theorem c3_counterexample :
    (keep_writing_segment cexC3).rows ≠ trimClaimedStrict cexC3 := by
  decide

/-- Claim C3 as amended: with "strictly increasing" read as the
non-strict monotonicity the code tests, `keep_writing_segment` computes
exactly the claimed trim on every segment of at least 8 records whose
records all have `state == 1`. -/
theorem c3_trim_matches_spec (f : Frame) (hst : ∀ r ∈ f.rows, r.state = 1)
    (hlen : 8 ≤ f.rows.length) :
    (keep_writing_segment f).rows = trimSpecMono f := by
  have hfil : f.rows.filter (fun r => decide (r.state = 1)) = f.rows := by
    rw [List.filter_eq_self]
    intro r hr
    simp [hst r hr]
  simp only [keep_writing_segment, trimSpecMono, hfil, apply_ite Frame.rows]
  rw [if_neg (by omega : ¬f.rows.length < 8)]

/-- Witness for `c3_trim_matches_spec` at a 12-record monotone segment. -/
theorem c3_trim_matches_spec_witness :
    (keep_writing_segment wSeg12).rows = trimSpecMono wSeg12 :=
  c3_trim_matches_spec wSeg12 (by decide) (by decide)

/-- The training `feat_channel` always yields 8 statistics. -/
theorem feat_channel_length_train (sq : Rat → Rat) (x : List Rat) :
    (Train.feat_channel sq x).length = 8 := by
  unfold Train.feat_channel
  split <;> rfl

/-- The inference `feat_channel` always yields 8 statistics. -/
theorem feat_channel_length_infer (sq : Rat → Rat) (x : List Rat) :
    (Infer.feat_channel sq x).length = 8 := by
  unfold Infer.feat_channel
  split <;> rfl

/-- Claim C5: for every non-empty cleaned segment, and for any float
square root, both `trial_features` implementations return exactly
6 channels × 8 statistics + 4 whole-trial scalars = 52 values, whatever
the length of the segment; the layout (ax..gz blocks, then duration, accel
path, gyro path, yaw integral) is definitional in `trialCore`. -/
theorem c5_feature_vector_is_52 (sq : Rat → Rat) (f : Frame) (_hne : f.rows ≠ []) :
    (Train.trial_features sq f).length = 52 ∧ (Infer.trial_features sq f).length = 52 := by
  constructor <;>
    simp [Train.trial_features, Infer.trial_features, trialCore, chanFuns,
      feat_channel_length_train, feat_channel_length_infer]

/-- Witness for `c5_feature_vector_is_52` at a one-record frame. -/
theorem c5_feature_vector_is_52_witness :
    (Train.trial_features id wRow1).length = 52 ∧ (Infer.trial_features id wRow1).length = 52 :=
  c5_feature_vector_is_52 id wRow1 (by decide)

/-- Claim C8: for every non-empty segment and every one of the six
channels, the variance of the channel is nonnegative — so its standard
deviation (any nonnegative float sqrt of it) exists — and the
normalization divisor `std + 1e-6` is strictly positive, making the
z-score division well defined even for a constant channel. -/
theorem c8_zero_variance_guard (sq : Rat → Rat) (hsq : ∀ v : Rat, 0 ≤ v → 0 ≤ sq v)
    (f : Frame) (_hne : f.rows ≠ []) :
    ∀ g ∈ chanFuns, 0 ≤ npVar (chan f g) ∧ 0 < sdEps sq (chan f g) := by
  intro g _hg
  have hvar : 0 ≤ npVar (chan f g) := by
    unfold npVar npMean
    apply div_nonneg
    · apply List.sum_nonneg
      intro t ht
      simp only [List.mem_map] at ht
      obtain ⟨u, hu, rfl⟩ := ht
      positivity
    · positivity
  refine ⟨hvar, ?_⟩
  have h1 := hsq _ hvar
  have h2 : (0 : Rat) < 1 / 1000000 := by norm_num
  unfold sdEps
  linarith

/-- Witness for `c8_zero_variance_guard` at a one-record frame (whose
channels are constant, hence of zero variance), with `sq := id` (which is
nonnegative on nonnegative inputs). -/
theorem c8_zero_variance_guard_witness :
    0 ≤ npVar (chan wRow1 fun r => r.ax) ∧ 0 < sdEps id (chan wRow1 fun r => r.ax) :=
  c8_zero_variance_guard id (fun _ hv => hv) wRow1 (by decide) (fun r => r.ax)
    (by simp [chanFuns])

/-- Bridge between the loop and the run-based description: starting from
any reachable state (a non-empty buffer whenever `in_write` is set), the
loop emits exactly the completed maximal `state == 1` runs, the current
buffer counting as the run in progress. -/
theorem runStream_eq_completedRuns (rs : List Rec) :
    ∀ s : SState, (s.in_write = true → s.buf ≠ []) →
      (runStream s rs).2 = completedRuns (if s.in_write then s.buf else []) rs := by
  induction rs with
  | nil => intro s _; cases s.in_write <;> rfl
  | cons r rs ih =>
    intro s hs
    by_cases hr : r.state = 1
    · by_cases hw : s.in_write = true
      · have hstep : step s r = (⟨s.buf ++ [r], true⟩, []) := by simp [step, hr, hw]
        have hrec := ih ⟨s.buf ++ [r], true⟩ (by simp)
        simp [runStream, hstep, hrec, completedRuns, hr, hw]
      · have hstep : step s r = (⟨[r], true⟩, []) := by simp [step, hr, hw]
        have hrec := ih ⟨[r], true⟩ (by simp)
        simp [runStream, hstep, hrec, completedRuns, hr, hw]
    · by_cases hw : s.in_write = true
      · have hstep : step s r = (⟨s.buf, false⟩, [s.buf]) := by simp [step, hr, hw]
        have hrec := ih ⟨s.buf, false⟩ (by simp)
        simp [runStream, hstep, hrec, completedRuns, hr, hw, hs hw]
      · have hw2 : s.in_write = false := by simpa using hw
        have hstep : step s r = (s, []) := by simp [step, hr, hw2]
        have hrec := ih s hs
        simp only [Bool.not_eq_true] at hw
        simp [runStream, hstep, hrec, completedRuns, hr, hw]

/-- Claim C4: from the initial idle state the controller emits exactly
the completed maximal runs of `state == 1` records — one segment per
ACTIVE-to-IDLE transition, equal to the run buffered since the last
IDLE-to-ACTIVE transition, never partial or repeated — and in particular
the state sequence 0,0,1,1,1,0,0 emits exactly one segment of 3 records
and 1,1,0,1,1,0 emits exactly two segments of 2 records each. -/
theorem c4_one_segment_per_transition :
    (∀ recs : List Rec, (runStream initS recs).2 = completedRuns [] recs) ∧
    (∀ r0 r1 r2 r3 r4 r5 r6 : Rec,
      r0.state = 0 → r1.state = 0 → r2.state = 1 → r3.state = 1 → r4.state = 1 →
      r5.state = 0 → r6.state = 0 →
      (runStream initS [r0, r1, r2, r3, r4, r5, r6]).2 = [[r2, r3, r4]]) ∧
    (∀ r0 r1 r2 r3 r4 r5 : Rec,
      r0.state = 1 → r1.state = 1 → r2.state = 0 → r3.state = 1 → r4.state = 1 →
      r5.state = 0 →
      (runStream initS [r0, r1, r2, r3, r4, r5]).2 = [[r0, r1], [r3, r4]]) := by
  have hgen : ∀ recs : List Rec, (runStream initS recs).2 = completedRuns [] recs := by
    intro recs
    have h := runStream_eq_completedRuns recs initS (by intro h; simp [initS] at h)
    simpa [initS] using h
  refine ⟨hgen, ?_, ?_⟩
  · intro r0 r1 r2 r3 r4 r5 r6 h0 h1 h2 h3 h4 h5 h6
    rw [hgen]
    simp [completedRuns, h0, h1, h2, h3, h4, h5, h6]
  · intro r0 r1 r2 r3 r4 r5 h0 h1 h2 h3 h4 h5
    rw [hgen]
    simp [completedRuns, h0, h1, h2, h3, h4, h5]

/-- Witness for `c4_one_segment_per_transition` on concrete records with
the claimed state sequences. -/
theorem c4_one_segment_per_transition_witness :
    (runStream initS [mkRec 0 0, mkRec 1 0, mkRec 2 1, mkRec 3 1, mkRec 4 1,
        mkRec 5 0, mkRec 6 0]).2 = [[mkRec 2 1, mkRec 3 1, mkRec 4 1]] ∧
    (runStream initS [mkRec 0 1, mkRec 1 1, mkRec 2 0, mkRec 3 1, mkRec 4 1,
        mkRec 5 0]).2 = [[mkRec 0 1, mkRec 1 1], [mkRec 3 1, mkRec 4 1]] :=
  ⟨c4_one_segment_per_transition.2.1 _ _ _ _ _ _ _ rfl rfl rfl rfl rfl rfl rfl,
   c4_one_segment_per_transition.2.2 _ _ _ _ _ _ rfl rfl rfl rfl rfl rfl⟩

/-- Every segment emitted from a state whose buffer holds only
`state == 1` records again holds only `state == 1` records. -/
theorem runStream_emits_all_active (rs : List Rec) :
    ∀ s : SState, (∀ r ∈ s.buf, r.state = 1) →
      ∀ seg ∈ (runStream s rs).2, ∀ r ∈ seg, r.state = 1 := by
  induction rs with
  | nil => intro s _ seg hseg; simp [runStream] at hseg
  | cons r rs ih =>
    intro s hs seg hseg
    by_cases hr : r.state = 1
    · by_cases hw : s.in_write = true
      · have hstep : step s r = (⟨s.buf ++ [r], true⟩, []) := by simp [step, hr, hw]
        have hbuf : ∀ x ∈ s.buf ++ [r], x.state = 1 := by
          intro x hx
          rcases List.mem_append.mp hx with h | h
          · exact hs x h
          · simp only [List.mem_singleton] at h
            subst h
            exact hr
        simp only [runStream, hstep, List.nil_append] at hseg
        exact ih ⟨s.buf ++ [r], true⟩ hbuf seg hseg
      · have hstep : step s r = (⟨[r], true⟩, []) := by simp [step, hr, hw]
        have hbuf : ∀ x ∈ ([r] : List Rec), x.state = 1 := by
          intro x hx
          simp only [List.mem_singleton] at hx
          subst hx
          exact hr
        simp only [runStream, hstep, List.nil_append] at hseg
        exact ih ⟨[r], true⟩ hbuf seg hseg
    · by_cases hw : s.in_write = true
      · have hstep : step s r = (⟨s.buf, false⟩, [s.buf]) := by simp [step, hr, hw]
        simp only [runStream, hstep, List.cons_append, List.nil_append,
          List.mem_cons] at hseg
        rcases hseg with h | h
        · subst h
          exact hs
        · exact ih ⟨s.buf, false⟩ hs seg h
      · have hw2 : s.in_write = false := by simpa using hw
        have hstep : step s r = (s, []) := by simp [step, hr, hw2]
        simp only [runStream, hstep, List.nil_append] at hseg
        exact ih s hs seg hseg

/-- Claim C9: a record whose state is any integer other than 1 acts as
idle — while ACTIVE it closes and emits the buffered segment, while IDLE
it is a no-op — and consequently every emitted segment consists solely of
`state == 1` records. -/
theorem c9_non_one_state_is_idle :
    (∀ (s : SState) (r : Rec), r.state ≠ 1 →
      step s r = (⟨s.buf, false⟩, if s.in_write then [s.buf] else [])) ∧
    (∀ recs : List Rec, ∀ seg ∈ (runStream initS recs).2, ∀ r ∈ seg, r.state = 1) := by
  constructor
  · intro s r hr
    cases s with
    | mk buf w =>
      cases w <;> simp [step, hr]
  · intro recs seg hseg r hr
    exact runStream_emits_all_active recs initS (by simp [initS]) seg hseg r hr

/-- Witness for `c9_non_one_state_is_idle`: a record with state 2 closes
and emits the active buffer, and the segments emitted from a concrete
stream containing states 1, 2 and -1 are all-active. -/
theorem c9_non_one_state_is_idle_witness :
    step ⟨[mkRec 0 1], true⟩ (mkRec 1 2) = (⟨[mkRec 0 1], false⟩, [[mkRec 0 1]]) ∧
    ∀ r ∈ [mkRec 0 1], r.state = 1 := by
  constructor
  · have h := c9_non_one_state_is_idle.1 ⟨[mkRec 0 1], true⟩ (mkRec 1 2) (by decide)
    simpa using h
  · intro r hr
    exact c9_non_one_state_is_idle.2
      [mkRec 0 1, mkRec 1 2, mkRec 2 1, mkRec 3 (-1)] [mkRec 0 1]
      (by decide) r hr

/-- A field list that is not exactly 9 long parses to `none`. -/
theorem parseFields_of_bad_length (pint : List Char → Option Int)
    (pfloat : List Char → Option Rat) (l : List (List Char)) (h : l.length ≠ 9) :
    parseFields pint pfloat l = none := by
  rcases l with _ | ⟨s0, _ | ⟨s1, _ | ⟨s2, _ | ⟨s3, _ | ⟨s4, _ | ⟨s5, _ | ⟨s6, _ |
    ⟨s7, _ | ⟨s8, _ | ⟨s9, l⟩⟩⟩⟩⟩⟩⟩⟩⟩⟩ <;>
    first
      | rfl
      | simp at h

/-- Claim C6: `parse_row` returns `none` — the record is dropped, never
partially constructed — exactly when the stripped line does not split on
commas into 9 fields or one of the first 8 fields fails its numeric
parse; on any other line it returns the fully populated record built
from the parsed fields, the 9th kept verbatim as the label. -/
theorem c6_parse_row_all_or_nothing (pint : List Char → Option Int)
    (pfloat : List Char → Option Rat) (line : List Char) :
    ((splitFields ',' (stripWs line)).length ≠ 9 → parse_row pint pfloat line = none) ∧
    ∀ s0 s1 s2 s3 s4 s5 s6 s7 s8,
      splitFields ',' (stripWs line) = [s0, s1, s2, s3, s4, s5, s6, s7, s8] →
      ((pint s0 = none ∨ pfloat s1 = none ∨ pfloat s2 = none ∨ pfloat s3 = none ∨
        pfloat s4 = none ∨ pfloat s5 = none ∨ pfloat s6 = none ∨ pint s7 = none) →
        parse_row pint pfloat line = none) ∧
      ∀ t a1 a2 a3 g1 g2 g3 st,
        pint s0 = some t → pfloat s1 = some a1 → pfloat s2 = some a2 →
        pfloat s3 = some a3 → pfloat s4 = some g1 → pfloat s5 = some g2 →
        pfloat s6 = some g3 → pint s7 = some st →
        parse_row pint pfloat line = some ⟨t, a1, a2, a3, g1, g2, g3, st, s8.asString⟩ := by
  constructor
  · intro h
    exact parseFields_of_bad_length pint pfloat _ h
  · intro s0 s1 s2 s3 s4 s5 s6 s7 s8 hsplit
    constructor
    · intro hfail
      unfold parse_row
      rw [hsplit]
      rcases h0 : pint s0 with _ | t <;>
        rcases h1 : pfloat s1 with _ | a1 <;>
        rcases h2 : pfloat s2 with _ | a2 <;>
        rcases h3 : pfloat s3 with _ | a3 <;>
        rcases h4 : pfloat s4 with _ | g1 <;>
        rcases h5 : pfloat s5 with _ | g2 <;>
        rcases h6 : pfloat s6 with _ | g3 <;>
        rcases h7 : pint s7 with _ | st <;>
        simp_all [parseFields]
    · intro t a1 a2 a3 g1 g2 g3 st h0 h1 h2 h3 h4 h5 h6 h7
      unfold parse_row
      rw [hsplit]
      simp [parseFields, h0, h1, h2, h3, h4, h5, h6, h7]

/-- Witness for `c6_parse_row_all_or_nothing` with concrete parsers: an
8-field line is rejected, a failing numeric field is rejected, and a
fully parsing line yields the populated record. -/
theorem c6_parse_row_all_or_nothing_witness :
    parse_row pintDemo pfloatDemo "1,2,2,2,2,2,2,1".toList = none ∧
    parse_row pintDemo pfloatDemo "1,x,2,2,2,2,2,1,lab".toList = none ∧
    parse_row pintDemo pfloatDemo "1,2,2,2,2,2,2,7,lab".toList =
      some ⟨1, 2, 2, 2, 2, 2, 2, 7, "lab"⟩ := by
  refine ⟨?_, ?_, ?_⟩
  · exact (c6_parse_row_all_or_nothing pintDemo pfloatDemo _).1 (by decide)
  · exact ((c6_parse_row_all_or_nothing pintDemo pfloatDemo _).2
      "1".toList "x".toList "2".toList "2".toList "2".toList "2".toList "2".toList
      "1".toList "lab".toList (by decide)).1 (Or.inr (Or.inl (by decide)))
  · exact ((c6_parse_row_all_or_nothing pintDemo pfloatDemo _).2
      "1".toList "2".toList "2".toList "2".toList "2".toList "2".toList "2".toList
      "7".toList "lab".toList (by decide)).2 1 2 2 2 2 2 2 7
      (by decide) (by decide) (by decide) (by decide) (by decide) (by decide)
      (by decide) (by decide)

/-- If the remaining file list contains a readable file whose trimmed
segment is usable but whose name yields no label, the loader aborts with
an error whatever has been accumulated so far. -/
theorem loadDatasetGo_error_of_bad (sq : Rat → Rat) (files : List CsvFile) :
    ∀ acc : List Sample,
      (∃ fp ∈ files, ∃ df : Frame, fp.content = some df ∧
        (keep_writing_segment df).rows ≠ [] ∧ label_from_name fp.name = none) →
      ∃ msg, loadDatasetGo sq acc files = .error msg := by
  induction files with
  | nil =>
    intro acc h
    simp at h
  | cons fp rest ih =>
    intro acc h
    rcases h with ⟨fq, hmem, df, hcontent, hrows, hlab⟩
    have hniq : ¬(keep_writing_segment df).rows.isEmpty = true := fun hh =>
      hrows (List.isEmpty_iff.mp hh)
    rcases List.mem_cons.mp hmem with heq | hmem2
    · subst heq
      refine ⟨"Cannot parse label from filename: " ++ fq.name, ?_⟩
      simp only [loadDatasetGo, hcontent, hlab, if_neg hniq]
    · cases hc : fp.content with
      | none =>
        have hr := ih acc ⟨fq, hmem2, df, hcontent, hrows, hlab⟩
        simp only [loadDatasetGo, hc]
        exact hr
      | some dg =>
        by_cases hemp : (keep_writing_segment dg).rows.isEmpty = true
        · have hr := ih acc ⟨fq, hmem2, df, hcontent, hrows, hlab⟩
          simp only [loadDatasetGo, hc, if_pos hemp]
          exact hr
        · cases hl : label_from_name fp.name with
          | none =>
            refine ⟨"Cannot parse label from filename: " ++ fp.name, ?_⟩
            simp only [loadDatasetGo, hc, if_neg hemp, hl]
          | some l =>
            have hr := ih
              (acc ++ [⟨Train.trial_features sq (keep_writing_segment dg), l, fp.name⟩])
              ⟨fq, hmem2, df, hcontent, hrows, hlab⟩
            simp only [loadDatasetGo, hc, if_neg hemp, hl]
            exact hr

/-- Claim C7: if any scanned corpus file is readable and yields a usable
(non-empty) trimmed segment but its digit label cannot be parsed from its
name, the whole corpus load aborts with an error — no partial corpus is
returned and no mislabeled pair is added. -/
theorem c7_unlabelable_file_aborts_load (sq : Rat → Rat) (files : List CsvFile)
    (h : ∃ fp ∈ files, ∃ df : Frame, fp.content = some df ∧
      (keep_writing_segment df).rows ≠ [] ∧ label_from_name fp.name = none) :
    ∃ msg, load_dataset sq files = .error msg :=
  loadDatasetGo_error_of_bad sq files [] h

/-- Witness for `c7_unlabelable_file_aborts_load`: a single readable file
whose trimmed segment keeps 8 records but whose name `digit_x_1.csv`
matches the glob pattern and not the label regex. -/
theorem c7_unlabelable_file_aborts_load_witness :
    ∃ msg, load_dataset id [⟨"digit_x_1.csv", some wSeg12⟩] = .error msg :=
  c7_unlabelable_file_aborts_load id [⟨"digit_x_1.csv", some wSeg12⟩]
    ⟨⟨"digit_x_1.csv", some wSeg12⟩, List.mem_cons_self _ _, wSeg12, rfl,
      by decide, by decide⟩

/-- Claim C2: the training-time peak-count feature (scipy `find_peaks`
on the absolute signal with height one standard deviation) and the
inference-time hand-rolled approximation are not extensionally equal: for
any float sqrt that is exact on perfect squares, the signal `[0, 2, 2, 0]`
(variance 1, threshold 1) has one scipy peak — the flat maximum counts
once — but two inference-time peaks, because the `>=`-neighbour test
counts every sample of the plateau.  Hence the two `feat_channel`
implementations disagree. -/
theorem c2_peak_count_skew (sq : Rat → Rat)
    (hsq : ∀ a : Rat, 0 ≤ a → sq (a * a) = a) :
    ∃ x : List Rat, Train.feat_channel sq x ≠ Infer.feat_channel sq x := by
  refine ⟨[0, 2, 2, 0], ?_⟩
  have hv : npVar [(0:Rat), 2, 2, 0] = 1 := by norm_num [npVar, npMean]
  have hs1 : sq (npVar [(0:Rat), 2, 2, 0]) * 1 = 1 := by
    rw [hv]
    have h := hsq 1 (by norm_num)
    norm_num at h
    rw [h]
    norm_num
  have hT : trainPeakCount sq [(0:Rat), 2, 2, 0] = 1 := by
    unfold trainPeakCount
    simp only [hs1]
    decide
  have hI : inferPeakCount sq [(0:Rat), 2, 2, 0] = 2 := by
    unfold inferPeakCount
    rw [hs1]
    decide
  intro heq
  have hxne : ([(0:Rat), 2, 2, 0]) ≠ [] := by decide
  rw [Train.feat_channel, Infer.feat_channel, if_neg hxne, if_neg hxne] at heq
  simp only [List.cons.injEq] at heq
  have hpk : ((trainPeakCount sq [(0:Rat), 2, 2, 0] : Nat) : Rat) =
      ((inferPeakCount sq [(0:Rat), 2, 2, 0] : Nat) : Rat) :=
    heq.2.2.2.2.2.2.2.1
  rw [hT, hI] at hpk
  norm_num at hpk

/-- Witness for `c2_peak_count_skew`, instantiating the abstract float
sqrt with the exact rational `Rat.sqrt` (which is exact on squares of
nonnegative rationals). -/
theorem c2_peak_count_skew_witness :
    ∃ x : List Rat, Train.feat_channel Rat.sqrt x ≠ Infer.feat_channel Rat.sqrt x :=
  c2_peak_count_skew Rat.sqrt (fun a ha => by rw [Rat.sqrt_eq, abs_of_nonneg ha])

/-- Contiguity ("is one consecutive run of") is transitive. -/
theorem contigTrans {u v w : List Rec} (h1 : ∃ s t, s ++ u ++ t = v)
    (h2 : ∃ s t, s ++ v ++ t = w) : ∃ s t, s ++ u ++ t = w := by
  rcases h1 with ⟨s1, t1, rfl⟩
  rcases h2 with ⟨s2, t2, rfl⟩
  exact ⟨s2 ++ s1, t1 ++ t2, by simp [List.append_assoc]⟩

/-- Dropping `k` records from each end keeps one consecutive run of the input. -/
theorem dropEnds_contig (k : Nat) (l : List Rec) :
    ∃ s t, s ++ dropEnds k l ++ t = l := by
  refine ⟨l.take k, (l.drop k).drop (l.length - 2 * k), ?_⟩
  unfold dropEnds
  rw [List.append_assoc, List.take_append_drop, List.take_append_drop]

/-- A pandas-monotone `t_ms` column gives the global pairwise ordering. -/
theorem mono_pairwise (l : List Rec) (h : monoNondec (l.map (·.t_ms)) = true) :
    l.Pairwise (fun a b => a.t_ms ≤ b.t_ms) := by
  induction l with
  | nil => exact List.Pairwise.nil
  | cons a l ih =>
    cases l with
    | nil => simp
    | cons b rest =>
      simp only [List.map_cons, monoNondec, Bool.and_eq_true, decide_eq_true_eq] at h
      have hp := ih (by simp only [List.map_cons]; exact h.2)
      refine List.pairwise_cons.mpr ⟨?_, hp⟩
      intro x hx
      rcases List.mem_cons.mp hx with rfl | hx2
      · exact h.1
      · exact le_trans h.1 ((List.pairwise_cons.mp hp).1 x hx2)

/-- On a list sorted by `t_ms`, filtering an upper timestamp bound keeps
exactly a prefix. -/
theorem filter_le_takeWhile (hi : Int) (l : List Rec)
    (hp : l.Pairwise (fun a b => a.t_ms ≤ b.t_ms)) :
    l.filter (fun r => decide (r.t_ms ≤ hi)) =
      l.takeWhile (fun r => decide (r.t_ms ≤ hi)) := by
  induction l with
  | nil => rfl
  | cons a l ih =>
    rcases List.pairwise_cons.mp hp with ⟨hall, hp2⟩
    by_cases ha : a.t_ms ≤ hi
    · simp [List.filter_cons, List.takeWhile_cons, ha, ih hp2]
    · have hnil : l.filter (fun r => decide (r.t_ms ≤ hi)) = [] := by
        rw [List.filter_eq_nil_iff]
        intro x hx
        simp only [decide_eq_true_eq]
        intro hxle
        exact ha (le_trans (hall x hx) hxle)
      simp [List.filter_cons, List.takeWhile_cons, ha, hnil]

/-- On a list sorted by `t_ms`, filtering a lower timestamp bound keeps
exactly a suffix. -/
theorem filter_ge_dropWhile (lo : Int) (l : List Rec)
    (hp : l.Pairwise (fun a b => a.t_ms ≤ b.t_ms)) :
    l.filter (fun r => decide (lo ≤ r.t_ms)) =
      l.dropWhile (fun r => !decide (lo ≤ r.t_ms)) := by
  induction l with
  | nil => rfl
  | cons a l ih =>
    rcases List.pairwise_cons.mp hp with ⟨hall, hp2⟩
    by_cases ha : lo ≤ a.t_ms
    · have hself : l.filter (fun r => decide (lo ≤ r.t_ms)) = l := by
        rw [List.filter_eq_self]
        intro x hx
        simp only [decide_eq_true_eq]
        exact le_trans ha (hall x hx)
      simp [List.filter_cons, List.dropWhile_cons, ha, hself]
    · simp [List.filter_cons, List.dropWhile_cons, ha, ih hp2]

/-- On a list sorted by `t_ms`, the 200 ms window filter keeps one
consecutive run of the input. -/
theorem filter_band_contig (lo hi : Int) (l : List Rec)
    (hp : l.Pairwise (fun a b => a.t_ms ≤ b.t_ms)) :
    ∃ s t, s ++ l.filter (fun r => decide (lo ≤ r.t_ms) && decide (r.t_ms ≤ hi)) ++ t = l := by
  have h1 := List.filter_filter (p := fun r : Rec => decide (lo ≤ r.t_ms))
    (fun r : Rec => decide (r.t_ms ≤ hi)) l
  rw [← h1, filter_le_takeWhile hi l hp,
    filter_ge_dropWhile lo _ (List.Pairwise.sublist (List.takeWhile_sublist _) hp)]
  refine ⟨(l.takeWhile fun r => decide (r.t_ms ≤ hi)).takeWhile
      (fun r => !decide (lo ≤ r.t_ms)),
    l.dropWhile (fun r => decide (r.t_ms ≤ hi)), ?_⟩
  rw [List.takeWhile_append_dropWhile, List.takeWhile_append_dropWhile]

/-- Claim C10: on any segment whose records all have `state == 1`,
`keep_writing_segment` returns one consecutive run of its input — the
kept records are contiguous, in original order, and none is modified,
duplicated or fabricated. -/
theorem c10_trim_keeps_contiguous_run (f : Frame) (hst : ∀ r ∈ f.rows, r.state = 1) :
    ∃ s t, s ++ (keep_writing_segment f).rows ++ t = f.rows := by
  have hfil : f.rows.filter (fun r => decide (r.state = 1)) = f.rows := by
    rw [List.filter_eq_self]
    intro r hr
    simp [hst r hr]
  simp only [keep_writing_segment, hfil, apply_ite Frame.rows]
  by_cases h8 : f.rows.length < 8
  · rw [if_pos h8]
    exact ⟨[], f.rows, by simp⟩
  rw [if_neg h8]
  by_cases hc : (f.hasT && monoNondec (f.rows.map fun r => r.t_ms)) = true
  · rw [if_pos hc]
    have hc2 := hc
    rw [Bool.and_eq_true] at hc2
    have hband := filter_band_contig ((f.rows.map fun r => r.t_ms).headD 0 + 200)
      ((f.rows.map fun r => r.t_ms).getLastD 0 - 200) f.rows
      (mono_pairwise f.rows hc2.2)
    split
    · split
      · exact contigTrans (dropEnds_contig 2 _) hband
      · exact hband
    · exact hband
  · rw [if_neg hc]
    split
    · exact dropEnds_contig _ _
    · exact ⟨[], [], by simp⟩

/-- Witness for `c10_trim_keeps_contiguous_run` on the 12-record segment:
the trimmed 8 middle records with explicit flanks. -/
theorem c10_trim_keeps_contiguous_run_witness :
    ∃ s t, s ++ (keep_writing_segment wSeg12).rows ++ t = wSeg12.rows :=
  c10_trim_keeps_contiguous_run wSeg12 (by decide)

end Syen
